import Mathlib

set_option maxRecDepth 8000

/-!
Verification development for the MVM technical-challenge data pipeline
(`01_data_cloud`): a shallow embedding in Lean 4 of

  * the synthetic-data generators of
    `src/data_generation/generate_org_data.py` (ages, tenure, dates,
    job positions, the employee job-position selection), and
  * the read API of `src/api/org_api.py` (the org view built by two
    pandas left merges, `list_employees`, `list_departments`,
    `salary_summary`).

Modelling conventions:

  * Python/NumPy floats are modelled as rationals (`ℚ`); `ndarray.round`
    and Python `round(x, 2)` are modelled with Mathlib's `round`
    (round-half-up rather than NumPy/Python round-half-to-even; no
    property proved here depends on the tie-breaking rule).
  * `datetime.date` values are modelled by their proleptic Gregorian
    ordinal (`date.toordinal()`), an order isomorphism under which
    `timedelta(days = k)` is `+ k` and date comparison is `ℤ` comparison.
  * Random sampling is modelled nondeterministically: a sampled value is
    an arbitrary input of the embedded function (for `rng.normal`,
    `rng.exponential`), a member of an explicit support set (for
    `np.random.randint`), or an arbitrary member of the candidate list
    (for `rng.choice`).
  * pandas DataFrames are modelled as a column-name list (for the
    dynamic `"col" in df.columns` checks of the API) together with a
    list of typed rows.
  * `DataFrame.sort_values(column)` uses NumPy's default `quicksort`
    (introsort), which guarantees only that the result is a permutation
    of the input sorted by the key, not stability; it is therefore
    modelled as a relation: any key-sorted permutation of the input is a
    permissible output.
-/

/-! ## Distribution generators (`generate_org_data.py`) -/

/-- Scalar `np.clip(x, lo, hi)`: `min (max x lo) hi`. -/
def npClip (x lo hi : ℚ) : ℚ := min (max x lo) hi

/-- One element of `generate_age` (lines 108-115): the raw normal sample
`x` (an arbitrary rational here) is clipped to `[22, 65]` and rounded to
an integer (`np.clip(ages, 22, 65)` then `.round().astype(int)`). -/
def generate_age (x : ℚ) : ℤ := round (npClip x 22 65)

/-- One element of `generate_tenure_years` (lines 118-134): the raw
exponential sample `raw` is clipped to `[0, 35]`, capped at
`max 0 (age - 21)` (with `age` the already rounded integer age), and
rounded to an integer. -/
def generate_tenure_years (age : ℤ) (raw : ℚ) : ℤ :=
  round (min (npClip raw 0 35) ((max 0 (age - 21) : ℤ) : ℚ))

/-- Monotonicity of rounding on `ℚ`. -/
theorem round_mono_rat {x y : ℚ} (h : x ≤ y) : round x ≤ round y := by
  rw [round_eq, round_eq]
  exact Int.floor_le_floor (by linarith)

/-- Rounding fixes integer casts, specialised to `ℚ`. -/
theorem round_intCast_rat (n : ℤ) : round ((n : ℚ)) = n := round_intCast n

/-- C2: for every employee produced by `generate_employees`, the
generated age lies in `[22, 65]` and the generated tenure satisfies
`0 ≤ tenure_years ≤ age - 21`: ages are clipped to `[22, 65]` and
rounded, tenure is clipped to `[0, 35]`, capped at `max 0 (age - 21)`,
and rounded.  `x` is the raw normal age sample and `raw` the raw
exponential tenure sample. -/
theorem generated_age_and_tenure_bounds (x raw : ℚ) :
    22 ≤ generate_age x ∧ generate_age x ≤ 65 ∧
    0 ≤ generate_tenure_years (generate_age x) raw ∧
    generate_tenure_years (generate_age x) raw ≤ generate_age x - 21 := by
  have hlo : (22 : ℚ) ≤ npClip x 22 65 := by
    unfold npClip
    exact le_min (le_max_right _ _) (by norm_num)
  have hhi : npClip x 22 65 ≤ (65 : ℚ) := min_le_right _ _
  have hage_lo : 22 ≤ generate_age x := by
    have := round_mono_rat hlo
    rwa [show ((22 : ℚ)) = ((22 : ℤ) : ℚ) by norm_num, round_intCast_rat]
      at this
  have hage_hi : generate_age x ≤ 65 := by
    have := round_mono_rat hhi
    rwa [show ((65 : ℚ)) = ((65 : ℤ) : ℚ) by norm_num, round_intCast_rat]
      at this
  refine ⟨hage_lo, hage_hi, ?_, ?_⟩
  · have h0 : (0 : ℚ) ≤ min (npClip raw 0 35) ((max 0 (generate_age x - 21) : ℤ) : ℚ) := by
      refine le_min ?_ ?_
      · exact le_min (le_max_right _ _) (by norm_num)
      · exact_mod_cast le_max_left 0 (generate_age x - 21)
    have := round_mono_rat h0
    rwa [show ((0 : ℚ)) = ((0 : ℤ) : ℚ) by norm_num, round_intCast_rat]
      at this
  · have hmax : (max 0 (generate_age x - 21) : ℤ) = generate_age x - 21 :=
      max_eq_right (by omega)
    have hle : min (npClip raw 0 35) ((max 0 (generate_age x - 21) : ℤ) : ℚ)
        ≤ ((generate_age x - 21 : ℤ) : ℚ) := by
      rw [hmax]
      exact min_le_right _ _
    have := round_mono_rat hle
    rwa [round_intCast_rat] at this

/-! ## Date generation (`generate_dates_from_age_and_tenure`, lines 148-198) -/

/-- Proleptic Gregorian ordinal of January 1st of year `y`, i.e.
`date(y, 1, 1).toordinal()` (floor division as in Python). -/
def jan1_ordinal (y : ℤ) : ℤ :=
  365 * (y - 1) + (y - 1).fdiv 4 - (y - 1).fdiv 100 + (y - 1).fdiv 400 + 1

/-- One loop iteration of `generate_dates_from_age_and_tenure`
(lines 170-196), with dates as ordinals: `birth_date` and `hire_date`
are `date(year, 1, 1) + timedelta(days = day_of_year)` and the hire
date is clamped up to `birth_date + timedelta(days = 18 * 365)` when it
falls earlier.  Returns `(birth_date, hire_date)`. -/
def generate_dates_one (todayYear age tenure bdoy hdoy : ℤ) : ℤ × ℤ :=
  let birth_date := jan1_ordinal (todayYear - age) + bdoy
  let hire_date := jan1_ordinal (todayYear - tenure) + hdoy
  let min_hire_date := birth_date + 18 * 365
  (birth_date, if hire_date < min_hire_date then min_hire_date else hire_date)

/-- C6: for every employee produced by `generate_dates_from_age_and_tenure`,
`hire_date ≥ birth_date + 18 * 365` days, and whenever the initially
sampled hire date falls before `birth_date + timedelta(days = 18 * 365)`
it is clamped upward to exactly that minimum. -/
theorem hire_date_at_least_18_years_after_birth
    (todayYear age tenure bdoy hdoy : ℤ) :
    (generate_dates_one todayYear age tenure bdoy hdoy).1 + 18 * 365 ≤
      (generate_dates_one todayYear age tenure bdoy hdoy).2 ∧
    (jan1_ordinal (todayYear - tenure) + hdoy <
        (generate_dates_one todayYear age tenure bdoy hdoy).1 + 18 * 365 →
      (generate_dates_one todayYear age tenure bdoy hdoy).2 =
        (generate_dates_one todayYear age tenure bdoy hdoy).1 + 18 * 365) := by
  unfold generate_dates_one
  dsimp only
  constructor
  · split <;> omega
  · intro h
    split <;> omega

/-- Witness for C6 at a concrete input (today 2025, age 30, tenure 25,
birth day offset 10, hire day offset 5: the sampled hire date falls
before the 18-year minimum and is clamped to it). -/
theorem hire_date_at_least_18_years_after_birth_witness :
    (jan1_ordinal (2025 - 25) + 5 <
        (generate_dates_one 2025 30 25 10 5).1 + 18 * 365) ∧
    (generate_dates_one 2025 30 25 10 5).2 =
      (generate_dates_one 2025 30 25 10 5).1 + 18 * 365 :=
  ⟨by decide, (hire_date_at_least_18_years_after_birth 2025 30 25 10 5).2 (by decide)⟩

/-! ## Day-of-year sampling (C9) -/

/-- Support of `np.random.randint(low, high)`: the integers of
`[low, high)` — the upper bound is exclusive in NumPy's legacy
`randint`.  The source (lines 179-180) samples the day offsets as
`np.random.randint(1, 365)`. -/
def np_randint_support (low high : ℤ) : Finset ℤ := Finset.Ico low high

/-- C9 evaluation: the sampled day offset `np.random.randint(1, 365)`
ranges over `{1, …, 364}`; the value 365 is impossible (exclusive upper
bound), and since the offset is added to January 1st the generated
day-of-year is the offset plus one, ranging over `{2, …, 365}` — not
the uniform `{1, …, 365}` the specification claims. -/
theorem randint_day_of_year_support :
    ((365 : ℤ) ∉ np_randint_support 1 365) ∧
    np_randint_support 1 365 = Finset.Icc 1 364 ∧
    (∀ d ∈ np_randint_support 1 365,
      (generate_dates_one 2025 30 5 d d).1 - jan1_ordinal (2025 - 30) + 1 ∈
        Finset.Icc (2 : ℤ) 365) := by
  refine ⟨by decide, by decide, ?_⟩
  intro d hd
  have hd' : 1 ≤ d ∧ d < 365 := by
    simpa [np_randint_support, Finset.mem_Ico] using hd
  simp only [generate_dates_one]
  rw [Finset.mem_Icc]
  omega

/-! ## Entity factories: departments and job positions -/

/-- A row of `departments_df` (`generate_departments`, lines 34-63). -/
structure Department where
  department_id : ℤ
  department_name : String
  department_type : String
  headcount_weight : ℚ
deriving DecidableEq, Repr

/-- A row of `job_positions_df` (`generate_job_positions`, lines 70-101). -/
structure JobPosition where
  job_position_id : ℤ
  department_id : ℤ
  position_name : String
  seniority_level : String
deriving DecidableEq, Repr

/-- The five fixed seniority levels (line 77). -/
def seniority_levels : List String :=
  ["Junior", "SemiSenior", "Senior", "Lead", "Manager"]

/-- The inner loop of `generate_job_positions` (lines 86-98): for one
department, append one position per seniority level, threading the
accumulated list and the `job_position_id` counter. -/
def job_positions_for_dept (d : Department) (acc : List JobPosition × ℤ) :
    List JobPosition × ℤ :=
  seniority_levels.foldl
    (fun st level =>
      (st.1 ++ [{ job_position_id := st.2,
                  department_id := d.department_id,
                  position_name := d.department_name ++ " " ++ level,
                  seniority_level := level }],
       st.2 + 1))
    acc

/-- `generate_job_positions` (lines 70-101): outer loop over the
departments, with the id counter starting at 1. -/
def generate_job_positions (departments : List Department) : List JobPosition :=
  (departments.foldl (fun acc d => job_positions_for_dept d acc) ([], 1)).1

/-- Modelled from the spec's words, for comparison with the source
definition: the cross-product of departments × seniority levels,
departments-major, with consecutive ids starting at `n` and
`position_name = "{department_name} {seniority_level}"`. -/
def job_positions_cross_product : List Department → ℤ → List JobPosition
  | [], _ => []
  | d :: ds, n =>
      (seniority_levels.enum.map fun q =>
        { job_position_id := n + (q.1 : ℤ),
          department_id := d.department_id,
          position_name := d.department_name ++ " " ++ q.2,
          seniority_level := q.2 })
        ++ job_positions_cross_product ds (n + 5)

/-- Evaluating the inner loop on one department. -/
theorem job_positions_for_dept_eq (d : Department) (acc : List JobPosition)
    (n : ℤ) :
    job_positions_for_dept d (acc, n) =
      (acc ++ (seniority_levels.enum.map fun q =>
        { job_position_id := n + (q.1 : ℤ),
          department_id := d.department_id,
          position_name := d.department_name ++ " " ++ q.2,
          seniority_level := q.2 }), n + 5) := by
  simp only [job_positions_for_dept, seniority_levels, List.foldl,
    List.enum, List.enumFrom, List.map, List.append_assoc,
    List.singleton_append, List.cons_append, List.nil_append]
  norm_num
  omega

/-- The outer fold of `generate_job_positions`, generalised over the
accumulator and the counter. -/
theorem generate_job_positions_fold (departments : List Department) :
    ∀ (acc : List JobPosition) (n : ℤ),
      departments.foldl (fun acc d => job_positions_for_dept d acc) (acc, n) =
        (acc ++ job_positions_cross_product departments n,
         n + 5 * departments.length) := by
  induction departments with
  | nil => intro acc n; simp [job_positions_cross_product]
  | cons d ds ih =>
      intro acc n
      rw [List.foldl_cons, job_positions_for_dept_eq, ih]
      simp only [job_positions_cross_product, List.append_assoc,
        List.length_cons, Prod.mk.injEq]
      exact ⟨trivial, by push_cast; ring⟩

/-- Ids of a cross-product block are the consecutive range starting at `n`. -/
theorem job_positions_cross_product_ids (departments : List Department) :
    ∀ n : ℤ,
      (job_positions_cross_product departments n).map (·.job_position_id) =
        (List.range (5 * departments.length)).map (fun k : ℕ => n + (k : ℤ)) := by
  induction departments with
  | nil => intro n; simp [job_positions_cross_product]
  | cons d ds ih =>
      intro n
      have h5 : 5 * (d :: ds).length = 5 + 5 * ds.length := by
        simp [List.length_cons]; ring
      rw [h5, List.range_add]
      simp only [job_positions_cross_product, List.map_append, ih,
        List.map_map]
      refine congrArg₂ (· ++ ·) ?_ ?_
      · simp [seniority_levels, List.enum, List.enumFrom, List.range_succ]
      · apply List.map_congr_left
        intro k _
        simp only [Function.comp_apply]
        push_cast
        ring

/-- The single-department record of the C7 scenario. -/
def ops_department : Department :=
  { department_id := 1, department_name := "Ops",
    department_type := "Core", headcount_weight := 4 }

/-- C7: `generate_job_positions` returns exactly the departments ×
seniority-levels cross-product in departments-major, levels-minor
order, with consecutive `job_position_id`s starting at 1 and
`position_name = "{department_name} {seniority_level}"`; its ids are
`1, 2, …, 5 * |departments|`; and on the single department
`{id 1, name "Ops"}` it yields exactly the five rows
"Ops Junior" … "Ops Manager", all with `department_id = 1`. -/
theorem generate_job_positions_cross_product_spec :
    (∀ departments : List Department,
        generate_job_positions departments =
          job_positions_cross_product departments 1) ∧
    (∀ departments : List Department,
        (generate_job_positions departments).map (·.job_position_id) =
          (List.range (5 * departments.length)).map (fun k : ℕ => 1 + (k : ℤ))) ∧
    generate_job_positions [ops_department] =
      [{ job_position_id := 1, department_id := 1,
         position_name := "Ops Junior", seniority_level := "Junior" },
       { job_position_id := 2, department_id := 1,
         position_name := "Ops SemiSenior", seniority_level := "SemiSenior" },
       { job_position_id := 3, department_id := 1,
         position_name := "Ops Senior", seniority_level := "Senior" },
       { job_position_id := 4, department_id := 1,
         position_name := "Ops Lead", seniority_level := "Lead" },
       { job_position_id := 5, department_id := 1,
         position_name := "Ops Manager", seniority_level := "Manager" }] := by
  have hmain : ∀ departments : List Department,
      generate_job_positions departments =
        job_positions_cross_product departments 1 := by
    intro departments
    unfold generate_job_positions
    rw [generate_job_positions_fold]
    simp
  refine ⟨hmain, ?_, ?_⟩
  · intro departments
    rw [hmain, job_positions_cross_product_ids]
  · decide

/-! ## Employee job-position selection (`generate_employees`, lines 284-309) -/

/-- The candidate `job_position_id` list for one sampled
`(department, seniority)` pair (lines 296-307): the ids of the positions
matching both department and level (`grouped_positions`), or — when that
group is missing or empty — the ids of all positions of the department
(the fallback branch).  `rng.choice` then picks one member of this
list. -/
def position_candidates (job_positions : List JobPosition)
    (dept_id : ℤ) (level : String) : List ℤ :=
  if ((job_positions.filter fun p =>
        p.department_id == dept_id && p.seniority_level == level).map
          (·.job_position_id)).isEmpty then
    (job_positions.filter fun p => p.department_id == dept_id).map
      (·.job_position_id)
  else
    (job_positions.filter fun p =>
      p.department_id == dept_id && p.seniority_level == level).map
        (·.job_position_id)

/-- Every candidate id belongs to a position of the sampled department. -/
theorem position_candidates_department (job_positions : List JobPosition)
    (dept_id : ℤ) (level : String) (j : ℤ)
    (hmem : j ∈ position_candidates job_positions dept_id level) :
    ∃ q ∈ job_positions, q.job_position_id = j ∧ q.department_id = dept_id := by
  unfold position_candidates at hmem
  split at hmem <;>
    · obtain ⟨q, hq, hqj⟩ := List.mem_map.mp hmem
      rw [List.mem_filter] at hq
      refine ⟨q, hq.1, hqj, ?_⟩
      have := hq.2
      simp only [Bool.and_eq_true, beq_iff_eq] at this
      first
        | exact this.1
        | exact this

/-- C1: for every employee produced by `generate_employees` — including
through the fallback branch taken when no position matches the sampled
`(department, seniority)` pair — the `JobPosition` that the employee's
`job_position_id` resolves to (under the factories' unique-id key) has
`department_id` equal to the employee's `department_id`.  Here `j` is
the id picked by `rng.choice` from the candidate list for the sampled
department `dept_id` and level `level`, and `p` is any position it
resolves to. -/
theorem employee_position_department_consistent
    (job_positions : List JobPosition) (dept_id : ℤ) (level : String)
    (j : ℤ) (hmem : j ∈ position_candidates job_positions dept_id level)
    (hnodup : (job_positions.map (·.job_position_id)).Nodup)
    (p : JobPosition) (hp : p ∈ job_positions)
    (hid : p.job_position_id = j) :
    p.department_id = dept_id := by
  obtain ⟨q, hq, hqj, hqd⟩ :=
    position_candidates_department job_positions dept_id level j hmem
  have : p = q :=
    List.inj_on_of_nodup_map hnodup hp hq (by rw [hid, hqj])
  rw [this, hqd]

/-- Witness for C1, exercising the fallback branch: the only position of
department 1 is a Senior one, the sampled level is Junior, so the exact
group is empty and the fallback offers position 7 of the same
department. -/
theorem employee_position_department_consistent_witness :
    (7 : ℤ) ∈ position_candidates
        [{ job_position_id := 7, department_id := 1,
           position_name := "Ops Senior", seniority_level := "Senior" }]
        1 "Junior" ∧
    ({ job_position_id := 7, department_id := 1,
       position_name := "Ops Senior",
       seniority_level := "Senior" } : JobPosition).department_id = 1 :=
  ⟨by decide,
   employee_position_department_consistent
     [{ job_position_id := 7, department_id := 1,
        position_name := "Ops Senior", seniority_level := "Senior" }]
     1 "Junior" 7 (by decide) (by decide) _ (by decide) (by decide)⟩

/-! ## The org view (`_build_org_view`, `org_api.py` lines 50-88) -/

/-- A row of `employees_df` (`generate_employees`, lines 338-356), with
dates as ordinals and floats as rationals. -/
structure Employee where
  employee_id : ℤ
  first_name : String
  last_name : String
  department_id : ℤ
  job_position_id : ℤ
  seniority_level : String
  birth_date : ℤ
  hire_date : ℤ
  age : ℤ
  tenure_years : ℤ
  salary : ℚ
deriving DecidableEq, Repr

/-- Row semantics of `left.merge(right, how="left", on=key)`: each left
row is paired with every right row of equal key, or with `none` (a row
of NaNs) when no right row matches. -/
def left_join {α β : Type} (left : List α) (right : List β)
    (kl : α → ℤ) (kr : β → ℤ) : List (α × Option β) :=
  left.flatMap fun a =>
    if (right.filter fun b => kr b == kl a).isEmpty then [(a, none)]
    else (right.filter fun b => kr b == kl a).map fun b => (a, some b)

/-- Row semantics of `_build_org_view` (lines 59-73): left-join employees
with job positions on `job_position_id`, then left-join the result with
departments on `department_id`.  After the first merge the surviving
un-suffixed `department_id` column is the employees' one (the positions'
copy is renamed `department_id_job` by the `("", "_job")` suffixes), so
the second join key is the employee's `department_id`.  The later
`astype`/`round` normalisation does not add or drop rows. -/
def build_org_view_rows (employees : List Employee)
    (job_positions : List JobPosition) (departments : List Department) :
    List ((Employee × Option JobPosition) × Option Department) :=
  left_join
    (left_join employees job_positions (·.job_position_id) (·.job_position_id))
    departments (fun ep => ep.1.department_id) (·.department_id)

/-- Under a unique right key, at most one right row matches a given key. -/
theorem filter_key_length_le_one {β : Type} (right : List β) (kr : β → ℤ)
    (hnodup : (right.map kr).Nodup) (k : ℤ) :
    (right.filter fun b => kr b == k).length ≤ 1 := by
  induction right with
  | nil => simp
  | cons b bs ih =>
      rw [List.map_cons, List.nodup_cons] at hnodup
      by_cases hb : kr b = k
      · have hnil : (bs.filter fun b' => kr b' == k) = [] := by
          rw [List.filter_eq_nil_iff]
          intro b' hb' hbeq
          rw [beq_iff_eq] at hbeq
          exact hnodup.1 (List.mem_map.mpr ⟨b', hb', by rw [hbeq, hb]⟩)
        simp [List.filter_cons, hb, hnil]
      · simpa [List.filter_cons, hb] using ih hnodup.2

/-- A left join with a unique right key preserves the left row count. -/
theorem left_join_length {α β : Type} (left : List α) (right : List β)
    (kl : α → ℤ) (kr : β → ℤ) (hnodup : (right.map kr).Nodup) :
    (left_join left right kl kr).length = left.length := by
  unfold left_join
  rw [List.length_flatMap]
  have hone : ∀ a : α,
      (List.length ∘ fun a =>
        if (right.filter fun b => kr b == kl a).isEmpty
        then [(a, (none : Option β))]
        else (right.filter fun b => kr b == kl a).map fun b => (a, some b))
          a = 1 := by
    intro a
    simp only [Function.comp_apply]
    by_cases hms : (right.filter fun b => kr b == kl a).isEmpty
    · rw [if_pos hms]
      rfl
    · rw [if_neg hms, List.length_map]
      have hle := filter_key_length_le_one right kr hnodup (kl a)
      have hne2 : (right.filter fun b => kr b == kl a) ≠ [] := by
        intro hnil
        rw [hnil] at hms
        exact hms rfl
      have hpos : 0 < (right.filter fun b => kr b == kl a).length :=
        List.length_pos.mpr hne2
      omega
  calc (left.map (List.length ∘ fun a =>
        if (right.filter fun b => kr b == kl a).isEmpty
        then [(a, (none : Option β))]
        else (right.filter fun b => kr b == kl a).map
          fun b => (a, some b))).sum
      = (left.map fun _ => 1).sum := by
        apply congrArg
        exact List.map_congr_left fun a _ => hone a
    _ = left.length := by simp

/-- C3: for any non-empty employee table and position and department
tables whose `job_position_id` and `department_id` columns are unique
keys (as the factories produce them), the org view built by the two
left joins of `_build_org_view` has exactly as many rows as the
employee table. -/
theorem org_view_row_count (employees : List Employee)
    (job_positions : List JobPosition) (departments : List Department)
    (hne : employees ≠ [])
    (hpos : (job_positions.map (·.job_position_id)).Nodup)
    (hdept : (departments.map (·.department_id)).Nodup) :
    (build_org_view_rows employees job_positions departments).length =
      employees.length := by
  unfold build_org_view_rows
  rw [left_join_length _ _ _ _ hdept, left_join_length _ _ _ _ hpos]

/-- Witness for C3: a two-employee table joined against one position and
one department. -/
theorem org_view_row_count_witness :
    (build_org_view_rows
      [{ employee_id := 1, first_name := "Ana", last_name := "Gómez",
         department_id := 1, job_position_id := 1,
         seniority_level := "Junior", birth_date := 719163,
         hire_date := 733000, age := 30, tenure_years := 2, salary := 100 },
       { employee_id := 2, first_name := "José", last_name := "Pérez",
         department_id := 2, job_position_id := 9,
         seniority_level := "Senior", birth_date := 700000,
         hire_date := 733500, age := 40, tenure_years := 5, salary := 200 }]
      [{ job_position_id := 1, department_id := 1,
         position_name := "Ops Junior", seniority_level := "Junior" }]
      [{ department_id := 1, department_name := "Ops",
         department_type := "Core", headcount_weight := 4 }]).length = 2 :=
  org_view_row_count _ _ _ (by decide) (by decide) (by decide)

/-! ## The query service data model (`org_api.py`) -/

/-- A row of the in-memory `ORG_VIEW`, restricted to the fields the
endpoints read.  Fields that the joins may leave unpopulated (NaN) are
`Option`s; whether a column exists at all in the frame is tracked
separately by the column-name list, mirroring the dynamic
`"col" in df.columns` / `row.get(...)` checks of the API. -/
structure ViewRow where
  employee_id : ℤ
  department_id : ℤ
  job_position_id : ℤ
  department_name : Option String
  job_title : Option String
  job_level : Option String
  salary : ℚ
  tenure_years : ℚ
  age : Option ℤ
deriving DecidableEq, Repr

/-- The `EmployeeItem` response model (lines 99-108). -/
structure EmployeeItem where
  employee_id : ℤ
  department_id : ℤ
  department_name : Option String
  job_position_id : ℤ
  job_title : Option String
  job_level : Option String
  salary : ℚ
  tenure_years : ℚ
  age : Option ℤ
deriving DecidableEq, Repr

/-- Python `round(x, 2)` / pandas `.round(2)`. -/
def round2 (x : ℚ) : ℚ := ((round (x * 100) : ℤ) : ℚ) / 100

/-- Building one `EmployeeItem` from a view row (lines 181-191): fields
read with `row.get` or guarded by `"col" in row` fall back to `None`
(respectively `0.0`) when the column is absent from the view. -/
def mk_employee_item (cols : List String) (r : ViewRow) : EmployeeItem :=
  { employee_id := r.employee_id
    department_id := r.department_id
    department_name := if "department_name" ∈ cols then r.department_name
      else none
    job_position_id := r.job_position_id
    job_title := if "job_title" ∈ cols then r.job_title else none
    job_level := if "job_level" ∈ cols then r.job_level else none
    salary := if "salary" ∈ cols then round2 r.salary else 0
    tenure_years := if "tenure_years" ∈ cols then round2 r.tenure_years else 0
    age := if "age" ∈ cols then r.age else none }

/-- The `department_id` filter of `list_employees` (lines 171-172):
applied only when the parameter is given and the column exists. -/
def filter_department (cols : List String) (rows : List ViewRow) :
    Option ℤ → List ViewRow
  | none => rows
  | some d =>
      if "department_id" ∈ cols then
        rows.filter fun r => r.department_id == d
      else rows

/-- The `job_level` filter of `list_employees` (lines 174-175): equality
against the column value (a NaN cell compares unequal), applied only
when the parameter is given and the column exists. -/
def filter_job_level (cols : List String) (rows : List ViewRow) :
    Option String → List ViewRow
  | none => rows
  | some l =>
      if "job_level" ∈ cols then
        rows.filter fun r => r.job_level == some l
      else rows

/-- The surviving rows of `list_employees` before sorting. -/
def filtered_rows (cols : List String) (rows : List ViewRow)
    (department_id : Option ℤ) (job_level : Option String) : List ViewRow :=
  filter_job_level cols (filter_department cols rows department_id) job_level

/-- Contract of `df.sort_values("employee_id")` (line 177): NumPy's
default quicksort guarantees only a permutation of the input that is
sorted by the key, so any such permutation is a permissible output. -/
def IsSortValuesByEmployeeId (df out : List ViewRow) : Prop :=
  out.Perm df ∧
    List.Pairwise (fun a b : ViewRow => a.employee_id ≤ b.employee_id) out

/-- The tail of `list_employees` (lines 177-194): the
`.iloc[offset : offset + limit]` window over the sorted rows, mapped to
response items. -/
def list_employees_items (cols : List String) (sorted_rows : List ViewRow)
    (limit offset : ℕ) : List EmployeeItem :=
  ((sorted_rows.drop offset).take limit).map (mk_employee_item cols)

/-- A key-sorted permutation of a list with duplicate-free keys is
unique. -/
theorem sorted_perm_unique {α : Type} (key : α → ℤ) :
    ∀ {l₁ l₂ : List α}, l₁.Perm l₂ →
      List.Pairwise (fun a b => key a ≤ key b) l₁ →
      List.Pairwise (fun a b => key a ≤ key b) l₂ →
      (l₁.map key).Nodup → l₁ = l₂ := by
  intro l₁
  induction l₁ with
  | nil =>
      intro l₂ hp _ _ _
      exact hp.nil_eq
  | cons a t₁ ih =>
      intro l₂ hp hs₁ hs₂ hnd
      cases l₂ with
      | nil => exact absurd hp.symm (by simp)
      | cons b t₂ =>
          rw [List.map_cons, List.nodup_cons] at hnd
          have hbmem : b ∈ a :: t₁ := hp.mem_iff.mpr (List.mem_cons_self b t₂)
          have hamem : a ∈ b :: t₂ := hp.mem_iff.mp (List.mem_cons_self a t₁)
          have hab : a = b := by
            rcases List.mem_cons.mp hbmem with hba | hbt
            · exact hba.symm
            · rcases List.mem_cons.mp hamem with hab' | hat
              · exact hab'
              · have h₁ : key a ≤ key b := List.rel_of_pairwise_cons hs₁ hbt
                have h₂ : key b ≤ key a := List.rel_of_pairwise_cons hs₂ hat
                exact absurd (List.mem_map.mpr ⟨b, hbt, le_antisymm h₂ h₁⟩)
                  hnd.1
          subst hab
          have hp' : t₁.Perm t₂ := hp.cons_inv
          rw [ih hp' hs₁.of_cons hs₂.of_cons hnd.2]

/-- C4: for every view snapshot and valid parameters
(`1 ≤ limit ≤ 1000`, `offset ≥ 0`), `list_employees` filters by
equality on the optional `department_id` and `job_level` predicates,
sorts the surviving rows ascending by `employee_id`, and returns the
`[offset, offset + limit)` window: the result has
`min limit (|filtered| - offset)` rows, is sorted ascending by
`employee_id`, is empty (never an error — the function is total) when
the filters match nothing, the sorted order is uniquely determined when
the `employee_id`s are duplicate-free, and on a 600-row filtered view
`limit = 100, offset = 0` returns exactly 100 rows while
`limit = 100, offset = 590` returns exactly the remaining 10 rows. -/
theorem list_employees_window_contract
    (cols : List String) (rows : List ViewRow)
    (department_id : Option ℤ) (job_level : Option String)
    (limit offset : ℕ) (hl1 : 1 ≤ limit) (hl2 : limit ≤ 1000)
    (out : List ViewRow)
    (hsort : IsSortValuesByEmployeeId
      (filtered_rows cols rows department_id job_level) out) :
    (list_employees_items cols out limit offset).length =
        min limit
          ((filtered_rows cols rows department_id job_level).length -
            offset) ∧
    List.Pairwise (fun a b : EmployeeItem => a.employee_id ≤ b.employee_id)
      (list_employees_items cols out limit offset) ∧
    (filtered_rows cols rows department_id job_level = [] →
      list_employees_items cols out limit offset = []) ∧
    (∀ out', IsSortValuesByEmployeeId
        (filtered_rows cols rows department_id job_level) out' →
      (out.map (·.employee_id)).Nodup → out' = out) ∧
    ((filtered_rows cols rows department_id job_level).length = 600 →
      (list_employees_items cols out 100 0).length = 100 ∧
      (list_employees_items cols out 100 590).length = 10 ∧
      list_employees_items cols out 100 590 =
        (out.map (mk_employee_item cols)).drop 590) := by
  obtain ⟨hperm, hsorted⟩ := hsort
  have hlen : out.length =
      (filtered_rows cols rows department_id job_level).length :=
    hperm.length_eq
  have hwin_len : ∀ l o : ℕ, (list_employees_items cols out l o).length =
      min l (out.length - o) := by
    intro l o
    simp [list_employees_items, List.length_take, List.length_drop]
  refine ⟨?_, ?_, ?_, ?_, ?_⟩
  · rw [hwin_len, hlen]
  · have hsub : ((out.drop offset).take limit).Sublist out :=
      (List.take_sublist _ _).trans (List.drop_sublist _ _)
    have hpw := List.Pairwise.sublist hsub hsorted
    unfold list_employees_items
    rw [List.pairwise_map]
    exact hpw.imp fun h => h
  · intro hnil
    rw [hnil] at hperm
    rw [list_employees_items, hperm.eq_nil]
    simp
  · intro out' hsort' hnd
    have hnd' : (out'.map (·.employee_id)).Nodup :=
      ((hsort'.1.trans hperm.symm).map (·.employee_id)).nodup_iff.mpr hnd
    exact sorted_perm_unique (·.employee_id)
      (hsort'.1.trans hperm.symm) hsort'.2 hsorted hnd'
  · intro h600
    have hout : out.length = 600 := by rw [hlen, h600]
    refine ⟨?_, ?_, ?_⟩
    · rw [hwin_len, hout]
      omega
    · rw [hwin_len, hout]
      omega
    · unfold list_employees_items
      have hdl : (out.drop 590).length = 10 := by
        rw [List.length_drop, hout]
      rw [List.take_of_length_le (by rw [hdl]; norm_num), List.map_drop]

/-- A small concrete view row for witnesses and counterexamples. -/
def sample_view_row (eid did : ℤ) (lvl : Option String) (sal : ℚ) : ViewRow :=
  { employee_id := eid, department_id := did, job_position_id := eid,
    department_name := some "Ops", job_title := none, job_level := lvl,
    salary := sal, tenure_years := 1, age := some 30 }

/-- Witness for C4 on a three-row view (no filters, limit 2, offset 1,
the identity sort). -/
theorem list_employees_window_contract_witness :
    (list_employees_items ["department_id"]
        [sample_view_row 1 1 none 10, sample_view_row 2 1 none 20,
          sample_view_row 3 2 none 30] 2 1).length =
      min 2
        ((filtered_rows ["department_id"]
            [sample_view_row 1 1 none 10, sample_view_row 2 1 none 20,
              sample_view_row 3 2 none 30] none none).length - 1) :=
  (list_employees_window_contract ["department_id"]
    [sample_view_row 1 1 none 10, sample_view_row 2 1 none 20,
      sample_view_row 3 2 none 30] none none 2 1
    (by decide) (by decide)
    [sample_view_row 1 1 none 10, sample_view_row 2 1 none 20,
      sample_view_row 3 2 none 30]
    ⟨List.Perm.refl _, by decide⟩).1

/-! ## Grouped aggregation (`salary_summary`, lines 254-315) -/

/-- Lexicographic comparison of char lists by code point, the order
Python and pandas use on `str` keys. -/
def char_list_le : List Char → List Char → Bool
  | [], _ => true
  | _ :: _, [] => false
  | a :: as, b :: bs =>
      if a.toNat < b.toNat then true
      else if b.toNat < a.toNat then false
      else char_list_le as bs

/-- String comparison by code-point-lexicographic order. -/
def string_le (a b : String) : Bool := char_list_le a.data b.data

/-- Insertion into a sorted list (kernel-computable sorting primitive,
used to model the key-ascending group order of pandas
`groupby(..., sort=True)` and — being stable — the stable-sort reading
of `sort_values`). -/
def ordered_insert {α : Type} (le : α → α → Bool) (a : α) :
    List α → List α
  | [] => [a]
  | b :: l => if le a b then a :: b :: l else b :: ordered_insert le a l

/-- Insertion sort with a boolean comparison. -/
def insertion_sort {α : Type} (le : α → α → Bool) : List α → List α
  | [] => []
  | a :: l => ordered_insert le a (insertion_sort le l)

/-- `ordered_insert` permutes the extended list. -/
theorem ordered_insert_perm {α : Type} (le : α → α → Bool) (a : α) :
    ∀ l : List α, (ordered_insert le a l).Perm (a :: l) := by
  intro l
  induction l with
  | nil => exact List.Perm.refl _
  | cons b t ih =>
      rw [ordered_insert]
      split
      · exact List.Perm.refl _
      · exact (ih.cons b).trans (List.Perm.swap a b t)

/-- `insertion_sort` permutes its input. -/
theorem insertion_sort_perm {α : Type} (le : α → α → Bool) :
    ∀ l : List α, (insertion_sort le l).Perm l := by
  intro l
  induction l with
  | nil => exact List.Perm.refl _
  | cons a t ih =>
      exact (ordered_insert_perm le a (insertion_sort le t)).trans (ih.cons a)

/-- One row of the per-level aggregation (`SalaryLevelSummary`,
lines 117-122; `count` comes from the group size). -/
structure SalaryLevelSummary where
  job_level : String
  avg_salary : ℚ
  min_salary : ℚ
  max_salary : ℚ
  count : ℕ
deriving DecidableEq, Repr

/-- The `SalarySummaryResponse` model (lines 125-129). -/
structure SalarySummaryResponse where
  overall_avg_salary : ℚ
  overall_min_salary : ℚ
  overall_max_salary : ℚ
  levels : List SalaryLevelSummary
deriving DecidableEq, Repr

/-- Mean of a list of rationals.  pandas yields NaN on an empty series;
this model yields 0 there, and no theorem below depends on the
empty-series value. -/
def list_mean (l : List ℚ) : ℚ := l.sum / l.length

/-- Minimum of a list of rationals (0 on the empty list, see
`list_mean`). -/
def list_min : List ℚ → ℚ
  | [] => 0
  | x :: xs => xs.foldl min x

/-- Maximum of a list of rationals (0 on the empty list, see
`list_mean`). -/
def list_max : List ℚ → ℚ
  | [] => 0
  | x :: xs => xs.foldl max x

/-- The (key, salary) pairs that `groupby` actually groups: pandas drops
rows whose grouping key is NaN, so only rows where `keyOf` yields a
value contribute.  For the `job_level` branch `keyOf` reads the
`job_level` column; for the `assign(job_level="N/A")` branch it is
constantly `some "N/A"`. -/
def keyed_salaries (keyOf : ViewRow → Option String)
    (rows : List ViewRow) : List (String × ℚ) :=
  rows.filterMap fun r => (keyOf r).map fun k => (k, r.salary)

/-- The salaries of one group. -/
def group_salaries (keyOf : ViewRow → Option String)
    (rows : List ViewRow) (k : String) : List ℚ :=
  ((keyed_salaries keyOf rows).filter fun p => p.1 == k).map Prod.snd

/-- The distinct group keys in ascending order (pandas `groupby` sorts
group keys). -/
def salary_group_keys (keyOf : ViewRow → Option String)
    (rows : List ViewRow) : List String :=
  insertion_sort string_le ((keyed_salaries keyOf rows).map Prod.fst).dedup

/-- The per-level aggregation of `salary_summary` (lines 264-292):
mean/min/max/size per group, with the three aggregates rounded to two
decimals afterwards. -/
def salary_groups (keyOf : ViewRow → Option String)
    (rows : List ViewRow) : List SalaryLevelSummary :=
  (salary_group_keys keyOf rows).map fun k =>
    { job_level := k
      avg_salary := round2 (list_mean (group_salaries keyOf rows k))
      min_salary := round2 (list_min (group_salaries keyOf rows k))
      max_salary := round2 (list_max (group_salaries keyOf rows k))
      count := (group_salaries keyOf rows k).length }

/-- `salary_summary` (lines 254-315): HTTP 500 when the `salary` column
is absent; otherwise the per-level groups (grouping by `job_level` when
that column exists, else by the constant `"N/A"` sentinel from
`df.assign(job_level="N/A")`) plus the unfiltered overall
mean/min/max, all rounded to two decimals. -/
def salary_summary (cols : List String) (rows : List ViewRow) :
    Except String SalarySummaryResponse :=
  if "salary" ∈ cols then
    .ok { overall_avg_salary := round2 (list_mean (rows.map (·.salary)))
          overall_min_salary := round2 (list_min (rows.map (·.salary)))
          overall_max_salary := round2 (list_max (rows.map (·.salary)))
          levels :=
            if "job_level" ∈ cols then salary_groups (·.job_level) rows
            else salary_groups (fun _ => some "N/A") rows }
  else .error "Columna salary no disponible en el modelo."

/-- The constant-key branch keys every row with the sentinel. -/
theorem keyed_salaries_const (rows : List ViewRow) :
    keyed_salaries (fun _ => some "N/A") rows =
      rows.map fun r => ("N/A", r.salary) := by
  induction rows with
  | nil => rfl
  | cons r t ih =>
      rw [keyed_salaries] at ih ⊢
      rw [List.filterMap_cons, List.map_cons]
      exact congrArg _ ih

/-- Deduplicating a non-empty constant list yields a singleton. -/
theorem dedup_replicate {α : Type} [DecidableEq α] (a : α) :
    ∀ n : ℕ, 0 < n → (List.replicate n a).dedup = [a] := by
  intro n
  induction n with
  | zero => intro h; exact absurd h (by norm_num)
  | succ m ih =>
      intro _
      by_cases hm : 0 < m
      · rw [List.replicate_succ,
          List.dedup_cons_of_mem (List.mem_replicate.mpr ⟨by omega, rfl⟩),
          ih hm]
      · have : m = 0 := by omega
        subst this
        rfl

/-- On a non-empty view the `assign(job_level="N/A")` branch produces a
single group holding every row. -/
theorem salary_groups_const_na (rows : List ViewRow) (hne : rows ≠ []) :
    salary_groups (fun _ => some "N/A") rows =
      [{ job_level := "N/A"
         avg_salary := round2 (list_mean (rows.map (·.salary)))
         min_salary := round2 (list_min (rows.map (·.salary)))
         max_salary := round2 (list_max (rows.map (·.salary)))
         count := rows.length }] := by
  have hsal : group_salaries (fun _ => some "N/A") rows "N/A" =
      rows.map (·.salary) := by
    rw [group_salaries, keyed_salaries_const]
    have hfil : ((rows.map fun r => ("N/A", r.salary)).filter
        fun p => p.1 == "N/A") = rows.map fun r => ("N/A", r.salary) := by
      rw [List.filter_eq_self]
      intro p hp
      obtain ⟨r, _, hr⟩ := List.mem_map.mp hp
      rw [← hr]
      exact beq_self_eq_true _
    rw [hfil, List.map_map]
    rfl
  have hkeys : salary_group_keys (fun _ => some "N/A") rows = ["N/A"] := by
    rw [salary_group_keys, keyed_salaries_const, List.map_map]
    have hconst : (rows.map (Prod.fst ∘ fun r => ("N/A", r.salary))) =
        List.replicate rows.length "N/A" := by
      rw [← List.map_const']
      rfl
    rw [hconst, dedup_replicate _ _ (List.length_pos.mpr hne)]
    rfl
  rw [salary_groups, hkeys, List.map_singleton, hsal]
  have : (rows.map (·.salary)).length = rows.length := List.length_map _ _
  rw [this]

/-- Grouping by the `job_level` column collects, per key, exactly the
salaries of the rows carrying that level (NaN levels are dropped). -/
theorem group_salaries_job_level (rows : List ViewRow) (k : String) :
    group_salaries (·.job_level) rows k =
      (rows.filter fun r => r.job_level == some k).map (·.salary) := by
  induction rows with
  | nil => rfl
  | cons r t ih =>
      rw [group_salaries, keyed_salaries] at ih ⊢
      rw [List.filterMap_cons, List.filter_cons]
      cases h : r.job_level with
      | none => simpa [h] using ih
      | some l =>
          by_cases hk : l = k
          · subst hk
            simpa [h, List.filter_cons] using congrArg (r.salary :: ·) ih
          · simpa [h, hk, List.filter_cons] using ih

/-- Every group key has at least one member row. -/
theorem group_salaries_length_pos (keyOf : ViewRow → Option String)
    (rows : List ViewRow) (k : String)
    (hk : k ∈ salary_group_keys keyOf rows) :
    0 < (group_salaries keyOf rows k).length := by
  rw [salary_group_keys] at hk
  have hk' : k ∈ ((keyed_salaries keyOf rows).map Prod.fst).dedup :=
    (insertion_sort_perm string_le _).mem_iff.mp hk
  obtain ⟨p, hp, hpk⟩ := List.mem_map.mp (List.mem_dedup.mp hk')
  have hpmem : p ∈ (keyed_salaries keyOf rows).filter fun q => q.1 == k :=
    List.mem_filter.mpr ⟨hp, by rw [hpk]; exact beq_self_eq_true _⟩
  rw [group_salaries, List.length_map]
  exact List.length_pos.mpr fun hnil => by rw [hnil] at hpmem; cases hpmem

/-- C5: `salary_summary` signals the internal configuration error
(HTTP 500) exactly when the `salary` column is absent from the view;
when `salary` is present it returns (never errors, even on an empty
view): the overall mean/min/max of all salaries rounded to two
decimals, and per-group mean/min/max/count — grouped by `job_level`
when that column exists, and otherwise a single `"N/A"` sentinel group
covering every row. -/
theorem salary_summary_contract (cols : List String) (rows : List ViewRow) :
    ((∃ e, salary_summary cols rows = .error e) ↔ "salary" ∉ cols) ∧
    (∀ resp, salary_summary cols rows = .ok resp →
      (resp.overall_avg_salary = round2 (list_mean (rows.map (·.salary))) ∧
       resp.overall_min_salary = round2 (list_min (rows.map (·.salary))) ∧
       resp.overall_max_salary = round2 (list_max (rows.map (·.salary)))) ∧
      ("job_level" ∉ cols → rows ≠ [] →
        resp.levels =
          [{ job_level := "N/A"
             avg_salary := round2 (list_mean (rows.map (·.salary)))
             min_salary := round2 (list_min (rows.map (·.salary)))
             max_salary := round2 (list_max (rows.map (·.salary)))
             count := rows.length }]) ∧
      ("job_level" ∈ cols →
        ∀ g ∈ resp.levels,
          0 < g.count ∧
          g.count = (rows.filter fun r =>
            r.job_level == some g.job_level).length ∧
          g.avg_salary = round2 (list_mean ((rows.filter fun r =>
            r.job_level == some g.job_level).map (·.salary))) ∧
          g.min_salary = round2 (list_min ((rows.filter fun r =>
            r.job_level == some g.job_level).map (·.salary))) ∧
          g.max_salary = round2 (list_max ((rows.filter fun r =>
            r.job_level == some g.job_level).map (·.salary))))) := by
  constructor
  · constructor
    · rintro ⟨e, he⟩ hsal
      rw [salary_summary, if_pos hsal] at he
      cases he
    · intro hsal
      exact ⟨_, by rw [salary_summary, if_neg hsal]⟩
  · intro resp hok
    by_cases hsal : "salary" ∈ cols
    · rw [salary_summary, if_pos hsal] at hok
      injection hok with hok
      subst hok
      refine ⟨⟨rfl, rfl, rfl⟩, ?_, ?_⟩
      · intro hlvl hne
        simp only [if_neg hlvl]
        exact salary_groups_const_na rows hne
      · intro hlvl g hg
        simp only [if_pos hlvl] at hg
        rw [salary_groups] at hg
        obtain ⟨k, hk, hgk⟩ := List.mem_map.mp hg
        subst hgk
        simp only
        rw [group_salaries_job_level]
        refine ⟨?_, by rw [List.length_map], rfl, rfl, rfl⟩
        have := group_salaries_length_pos (·.job_level) rows k hk
        rw [group_salaries_job_level] at this
        simpa using this
    · rw [salary_summary, if_neg hsal] at hok
      cases hok

/-- Witness for C5 on a one-row view whose only columns of interest are
`salary` (present) and `job_level` (absent): the result is a successful
response (not the configuration error) with a single `"N/A"` group of
count 1. -/
theorem salary_summary_contract_witness :
    ∃ resp, salary_summary ["salary"] [sample_view_row 1 1 none 10] =
        Except.ok resp ∧
      resp.levels.map (fun g => g.job_level) = ["N/A"] ∧
      resp.levels.map (fun g => g.count) = [1] := by
  cases hE : salary_summary ["salary"] [sample_view_row 1 1 none 10] with
  | error e =>
      exact absurd ((salary_summary_contract ["salary"]
        [sample_view_row 1 1 none 10]).1.mp ⟨e, hE⟩) (by decide)
  | ok resp =>
      have h3 := ((salary_summary_contract ["salary"]
        [sample_view_row 1 1 none 10]).2 resp hE).2.1 (by decide) (by decide)
      exact ⟨resp, rfl, by rw [h3]; rfl, by rw [h3]; rfl⟩

/-! ## Department headcount (`list_departments`, lines 225-251) -/

/-- The `DepartmentSummary` response model (lines 111-114); the
`department_name` of a group row is never null because `groupby` drops
null keys. -/
structure DepartmentSummary where
  department_id : ℤ
  department_name : String
  headcount : ℕ
deriving DecidableEq, Repr

/-- The `(department_id, department_name)` keys that
`groupby(["department_id", "department_name"])` groups: pandas drops
rows whose `department_name` is NaN. -/
def dept_keyed (rows : List ViewRow) : List (ℤ × String) :=
  rows.filterMap fun r => r.department_name.map fun nm => (r.department_id, nm)

/-- Ascending lexicographic order on the group keys (the group order
`groupby(..., sort=True)` emits). -/
def dept_key_le (a b : ℤ × String) : Bool :=
  if a.1 < b.1 then true
  else if b.1 < a.1 then false
  else string_le a.2 b.2

/-- The grouped headcounts of `list_departments` before the descending
sort (lines 235-238): one row per distinct key, in ascending key order,
whose `headcount` is the group size. -/
def headcount_groups (rows : List ViewRow) : List DepartmentSummary :=
  (insertion_sort dept_key_le (dept_keyed rows).dedup).map fun k =>
    { department_id := k.1, department_name := k.2,
      headcount := List.count k (dept_keyed rows) }

/-- Descending-headcount comparison (`ascending=False`). -/
def headcount_desc_le (a b : DepartmentSummary) : Bool :=
  decide (b.headcount ≤ a.headcount)

/-- Contract of `.sort_values("headcount", ascending=False)` (line 239):
NumPy's default quicksort guarantees only a permutation sorted
descending by the key. -/
def IsSortValuesByHeadcountDesc (df out : List DepartmentSummary) : Prop :=
  out.Perm df ∧
    List.Pairwise (fun a b : DepartmentSummary => b.headcount ≤ a.headcount)
      out

/-- The observable behaviour of `list_departments` (lines 225-251): both
department columns are present (else the endpoint raises HTTP 500) and
the returned rows are a permissible descending sort of the grouped
headcounts. -/
def ListDepartmentsResult (cols : List String) (rows : List ViewRow)
    (out : List DepartmentSummary) : Prop :=
  "department_id" ∈ cols ∧ "department_name" ∈ cols ∧
    IsSortValuesByHeadcountDesc (headcount_groups rows) out

/-- A two-row view with two tied single-row departments. -/
def tie_rows : List ViewRow :=
  [{ employee_id := 1, department_id := 1, job_position_id := 1,
     department_name := some "Operations", job_title := none,
     job_level := none, salary := 1, tenure_years := 1, age := none },
   { employee_id := 2, department_id := 2, job_position_id := 2,
     department_name := some "Commercial", job_title := none,
     job_level := none, salary := 1, tenure_years := 1, age := none }]

/-- C8 counterexample: on `tie_rows` both departments have headcount 1,
and the reversed order is also a permissible output of the unstable
`sort_values` (a sorted permutation), yet it differs from the stable
sort of the pre-sort group order.  The code therefore does not
guarantee that ties are broken by the original department order. -/
theorem list_departments_stable_tie_counterexample :
    ListDepartmentsResult ["department_id", "department_name"] tie_rows
      [{ department_id := 2, department_name := "Commercial",
         headcount := 1 },
       { department_id := 1, department_name := "Operations",
         headcount := 1 }] ∧
    ([{ department_id := 2, department_name := "Commercial",
        headcount := 1 },
      { department_id := 1, department_name := "Operations",
        headcount := 1 }] : List DepartmentSummary) ≠
      insertion_sort headcount_desc_le (headcount_groups tie_rows) := by
  refine ⟨⟨by decide, by decide, ?_, by decide⟩, by decide⟩
  have hg : headcount_groups tie_rows =
      [{ department_id := 1, department_name := "Operations",
         headcount := 1 },
       { department_id := 2, department_name := "Commercial",
         headcount := 1 }] := by decide
  rw [hg]
  exact List.Perm.swap _ _ _

/-- `List.count` agrees across lawful `BEq` instances. -/
theorem count_instances_eq {α : Type} [inst : BEq α] [linst : LawfulBEq α]
    [dec : DecidableEq α] (k : α) (l : List α) :
    @List.count α inst k l = @List.count α (@instBEqOfDecidableEq α dec) k l := by
  induction l with
  | nil => rfl
  | cons a t ih =>
      rw [@List.count_cons α inst,
        @List.count_cons α (@instBEqOfDecidableEq α dec), ih]
      by_cases h : a = k
      · subst h
        simp
      · have h1 : (@BEq.beq α inst a k) = false := beq_eq_false_iff_ne.mpr h
        have h2 : (@BEq.beq α (@instBEqOfDecidableEq α dec) a k) = false := by
          simpa using h
        rw [h1, h2]

/-- C8 (amended): for every view snapshot with both department columns,
every output `list_departments` may return groups the non-null-named
rows by `(department_id, department_name)`, reports each group's size
as its `headcount` (so the headcounts sum to the number of grouped
rows and every group is non-empty), and is sorted descending by
`headcount`; the order among tied headcounts is not specified. -/
theorem list_departments_headcount_contract
    (cols : List String) (rows : List ViewRow)
    (out : List DepartmentSummary)
    (h : ListDepartmentsResult cols rows out) :
    (∀ g ∈ out, 0 < g.headcount ∧
      g.headcount =
        List.count (g.department_id, g.department_name) (dept_keyed rows)) ∧
    (out.map fun g => g.headcount).sum = (dept_keyed rows).length ∧
    List.Pairwise (fun a b : DepartmentSummary => b.headcount ≤ a.headcount)
      out ∧
    (out.map fun g => (g.department_id, g.department_name)).Perm
      (dept_keyed rows).dedup := by
  obtain ⟨-, -, hperm, hsorted⟩ := h
  refine ⟨?_, ?_, hsorted, ?_⟩
  · intro g hg
    have hg' : g ∈ headcount_groups rows := hperm.mem_iff.mp hg
    rw [headcount_groups] at hg'
    obtain ⟨k, hk, hgk⟩ := List.mem_map.mp hg'
    subst hgk
    have hkmem : k ∈ (dept_keyed rows).dedup :=
      (insertion_sort_perm _ _).mem_iff.mp hk
    exact ⟨List.count_pos_iff.mpr (List.mem_dedup.mp hkmem), rfl⟩
  · have h1 : (out.map fun g => g.headcount).sum =
        ((headcount_groups rows).map fun g => g.headcount).sum :=
      ((hperm.map fun g => g.headcount)).sum_eq
    have h2 : (((insertion_sort dept_key_le (dept_keyed rows).dedup).map
        fun k => List.count k (dept_keyed rows))).sum =
        (((dept_keyed rows).dedup).map
          fun k => List.count k (dept_keyed rows)).sum :=
      ((insertion_sort_perm dept_key_le _).map
        fun k => List.count k (dept_keyed rows)).sum_eq
    rw [h1, headcount_groups, List.map_map]
    calc ((insertion_sort dept_key_le (dept_keyed rows).dedup).map
          ((fun g : DepartmentSummary => g.headcount) ∘ fun k =>
            ({ department_id := k.1, department_name := k.2,
               headcount := List.count k (dept_keyed rows) }))).sum
        = (((dept_keyed rows).dedup).map
            fun k => List.count k (dept_keyed rows)).sum := h2
      _ = (((dept_keyed rows).dedup).map fun k =>
            @List.count _ instBEqOfDecidableEq k (dept_keyed rows)).sum := by
          apply congrArg
          exact List.map_congr_left fun k _ => count_instances_eq k _
      _ = (dept_keyed rows).length :=
          List.sum_map_count_dedup_eq_length _
  · have h3 : (headcount_groups rows).map
        (fun g => (g.department_id, g.department_name)) =
        insertion_sort dept_key_le (dept_keyed rows).dedup := by
      rw [headcount_groups, List.map_map]
      exact List.map_id _
    exact (hperm.map _).trans (by rw [h3]; exact insertion_sort_perm _ _)

/-- Witness for C8's amended contract on `tie_rows`, with the stable
output itself: its headcounts sum to the number of grouped rows. -/
theorem list_departments_headcount_contract_witness :
    ((headcount_groups tie_rows).map fun g => g.headcount).sum =
      (dept_keyed tie_rows).length :=
  (list_departments_headcount_contract
    ["department_id", "department_name"] tie_rows (headcount_groups tie_rows)
    ⟨by decide, by decide, List.Perm.refl _, by decide⟩).2.1

/-! ## Org-view columns (C10) -/

/-- Columns of `employees_df` (`generate_employees`, lines 338-356). -/
def employees_columns : List String :=
  ["employee_id", "first_name", "last_name", "department_id",
   "job_position_id", "seniority_level", "birth_date", "hire_date",
   "age", "tenure_years", "salary"]

/-- Columns of `job_positions_df` (`generate_job_positions`,
lines 90-97). -/
def job_positions_columns : List String :=
  ["job_position_id", "department_id", "position_name", "seniority_level"]

/-- Columns of `departments_df` (`generate_departments`, lines 51-61). -/
def departments_columns : List String :=
  ["department_id", "department_name", "department_type",
   "headcount_weight"]

/-- Column result of `left.merge(right, how="left", on=key,
suffixes=("", sfx))`: the left columns keep their names (empty left
suffix), the right columns other than the key follow, renamed with
`sfx` when they collide with a left column. -/
def merge_columns (lc rc : List String) (key sfx : String) : List String :=
  lc ++ (rc.filter fun c => !(c == key)).map
    fun c => if c ∈ lc then c ++ sfx else c

/-- Columns of `ORG_VIEW` as `_build_org_view` (lines 59-73) produces
them from the factory tables: the `("", "_job")` and `("", "_dept")`
merges rename the positions' `department_id`/`seniority_level` and add
the department columns. -/
def org_view_columns : List String :=
  merge_columns
    (merge_columns employees_columns job_positions_columns
      "job_position_id" "_job")
    departments_columns "department_id" "_dept"

/-- C10: the org view built from the factory tables has no `job_title`
and no `job_level` column (the joined position columns stay
`position_name` and the suffixed `seniority_level_job`).  Consequently
the `job_level` filter of `list_employees` is a no-op for every
request, every returned employee record has null `job_title` and
`job_level` fields, and `salary_summary` always takes the
absent-`job_level` branch, producing a single `"N/A"` group covering
all rows. -/
theorem org_view_lacks_job_title_and_job_level :
    ("job_title" ∉ org_view_columns ∧ "job_level" ∉ org_view_columns) ∧
    (∀ (rows : List ViewRow) (department_id : Option ℤ)
        (job_level : Option String),
      filtered_rows org_view_columns rows department_id job_level =
        filter_department org_view_columns rows department_id) ∧
    (∀ r : ViewRow,
      (mk_employee_item org_view_columns r).job_title = none ∧
      (mk_employee_item org_view_columns r).job_level = none) ∧
    (∀ rows : List ViewRow, rows ≠ [] →
      ∃ resp, salary_summary org_view_columns rows = Except.ok resp ∧
        resp.levels.map (fun g => g.job_level) = ["N/A"] ∧
        resp.levels.map (fun g => g.count) = [rows.length]) := by
  have hnl : "job_level" ∉ org_view_columns := by decide
  refine ⟨⟨by decide, hnl⟩, ?_, ?_, ?_⟩
  · intro rows department_id job_level
    rw [filtered_rows]
    cases job_level with
    | none => rfl
    | some l =>
        rw [filter_job_level, if_neg hnl]
  · intro r
    constructor
    · show (if "job_title" ∈ org_view_columns then r.job_title else none) =
        none
      rw [if_neg (by decide)]
    · show (if "job_level" ∈ org_view_columns then r.job_level else none) =
        none
      rw [if_neg hnl]
  · intro rows hne
    rw [salary_summary, if_pos (by decide), if_neg hnl]
    refine ⟨_, rfl, ?_, ?_⟩ <;>
      rw [salary_groups_const_na rows hne] <;> rfl

/-- Witness for C10 on a one-row view over the org-view columns. -/
theorem org_view_lacks_job_title_and_job_level_witness :
    ∃ resp, salary_summary org_view_columns [sample_view_row 1 1 none 10] =
        Except.ok resp ∧
      resp.levels.map (fun g => g.job_level) = ["N/A"] ∧
      resp.levels.map (fun g => g.count) =
        [([sample_view_row 1 1 none 10] : List ViewRow).length] :=
  org_view_lacks_job_title_and_job_level.2.2.2
    [sample_view_row 1 1 none 10] (by decide)

/-- Witness for C9's evaluation theorem: the offset 5 is in the sampled
support and yields day-of-year 6, inside `{2, …, 365}`. -/
theorem randint_day_of_year_support_witness :
    ((5 : ℤ) ∈ np_randint_support 1 365) ∧
    (generate_dates_one 2025 30 5 5 5).1 - jan1_ordinal (2025 - 30) + 1 ∈
      Finset.Icc (2 : ℤ) 365 :=
  ⟨by decide, randint_day_of_year_support.2.2 5 (by decide)⟩
